import Mathlib

/-!
A shallow embedding of the GitHub team-synchronization core
(sync-team/src/github/mod.rs): the diff-computation engine that compares a
declared state against the observed GitHub state, and the diff-application
logic that issues write-capability calls.

Modelling conventions:
- Rust HashMaps are modelled as association lists; HashMap construction from
  an iterator is modelled by hmFromList (later duplicate keys overwrite), and
  iteration order is the list order (the Rust iteration order is
  unspecified; the claims proved here do not depend on it).
- Fallible computations (anyhow::Result in the source, including panics such
  as the u8 conversion of the approval count and username-cache misses) are
  modelled with Option: none is any error.
- Read-capability calls are modelled as pure lookups in a GithubState record
  holding the observed provider state.
- Write-capability calls are modelled by the trace of WriteCall values an
  apply function issues, in order.
- Rust String ordering (used by Vec::sort on the CI check names) is the
  lexicographic order on the character sequence, defined here as lexLe.
-/

namespace SyncTeam

/-! ## Lexicographic string order, modelling Rust's Ord for String -/

/-- Lexicographic comparison of character lists by code point, modelling the
byte-lexicographic Ord instance Rust uses for String (the two coincide for
UTF-8 encoded text). -/
def lexLe : List Char → List Char → Bool
  | [], _ => true
  | _ :: _, [] => false
  | a :: as, b :: bs =>
    if a.toNat = b.toNat then lexLe as bs
    else decide (a.toNat < b.toNat)

/-- String comparison via lexLe on the underlying character data. -/
def strLe (a b : String) : Bool := lexLe a.data b.data

theorem lexLe_total : ∀ as bs, lexLe as bs = true ∨ lexLe bs as = true := by
  intro as
  induction as with
  | nil => intro bs; left; rfl
  | cons a as ih =>
    intro bs
    cases bs with
    | nil => right; rfl
    | cons b bs =>
      simp only [lexLe]
      rcases Nat.lt_trichotomy a.toNat b.toNat with h | h | h
      · left; rw [if_neg (by omega)]; simpa using h
      · rw [if_pos h, if_pos h.symm]; exact ih bs
      · right; rw [if_neg (by omega)]; simpa using h

theorem char_toNat_inj {a b : Char} (h : a.toNat = b.toNat) : a = b := by
  apply Char.eq_of_val_eq
  unfold Char.toNat at h
  exact UInt32.toNat.inj h

theorem lexLe_antisymm : ∀ as bs, lexLe as bs = true → lexLe bs as = true → as = bs := by
  intro as
  induction as with
  | nil =>
    intro bs h1 h2
    cases bs with
    | nil => rfl
    | cons b bs => simp [lexLe] at h2
  | cons a as ih =>
    intro bs h1 h2
    cases bs with
    | nil => simp [lexLe] at h1
    | cons b bs =>
      simp only [lexLe] at h1 h2
      by_cases h : a.toNat = b.toNat
      · rw [if_pos h] at h1
        rw [if_pos h.symm] at h2
        rw [char_toNat_inj h, ih bs h1 h2]
      · rw [if_neg h] at h1
        rw [if_neg (fun hh => h hh.symm)] at h2
        simp at h1 h2
        omega

theorem lexLe_trans :
    ∀ as bs cs, lexLe as bs = true → lexLe bs cs = true → lexLe as cs = true := by
  intro as
  induction as with
  | nil => intros; rfl
  | cons a as ih =>
    intro bs cs h1 h2
    cases bs with
    | nil => simp [lexLe] at h1
    | cons b bs =>
      cases cs with
      | nil => simp [lexLe] at h2
      | cons c cs =>
        simp only [lexLe] at h1 h2 ⊢
        by_cases hab : a.toNat = b.toNat
        · rw [if_pos hab] at h1
          by_cases hbc : b.toNat = c.toNat
          · rw [if_pos hbc] at h2
            rw [if_pos (hab.trans hbc)]
            exact ih bs cs h1 h2
          · rw [if_neg hbc] at h2
            rw [if_neg (by omega), hab]
            exact h2
        · rw [if_neg hab] at h1
          simp at h1
          by_cases hbc : b.toNat = c.toNat
          · rw [if_neg (by omega)]
            simp; omega
          · rw [if_neg hbc] at h2
            simp at h2
            rw [if_neg (by omega)]
            simp; omega

/-- The string order as a relation, for use with the sorting machinery. -/
def strLeP (a b : String) : Prop := strLe a b = true

instance : DecidableRel strLeP := fun _ _ => inferInstanceAs (Decidable (_ = true))

instance : IsTotal String strLeP := ⟨fun a b => lexLe_total a.data b.data⟩

instance : IsTrans String strLeP := ⟨fun a b c => lexLe_trans a.data b.data c.data⟩

instance : IsAntisymm String strLeP :=
  ⟨fun a b h1 h2 => by
    have h := lexLe_antisymm a.data b.data h1 h2
    cases a; cases b; simp_all⟩

/-- Model of checks.sort() on a Vec of Strings. -/
def sortStrings (l : List String) : List String := List.insertionSort strLeP l

theorem sortStrings_perm_eq {l l' : List String} (h : l.Perm l') :
    sortStrings l = sortStrings l' := by
  apply List.eq_of_perm_of_sorted (r := strLeP)
  · exact ((List.perm_insertionSort _ l).trans h).trans (List.perm_insertionSort _ l').symm
  · exact List.sorted_insertionSort _ l
  · exact List.sorted_insertionSort _ l'

theorem sortStrings_sorted (l : List String) : (sortStrings l).Sorted strLeP :=
  List.sorted_insertionSort _ l

/-! ## Association-list model of HashMap -/

/-- HashMap lookup. -/
def hmGet [DecidableEq κ] (m : List (κ × α)) (k : κ) : Option α :=
  (m.find? fun e => decide (e.1 = k)).map (·.2)

/-- HashMap remove: drops the binding for the key, if present. -/
def hmRemove [DecidableEq κ] (m : List (κ × α)) (k : κ) : List (κ × α) :=
  m.filter fun e => decide (e.1 ≠ k)

/-- HashMap insert: overwrites an existing binding, otherwise appends. -/
def hmInsert [DecidableEq κ] (m : List (κ × α)) (k : κ) (v : α) : List (κ × α) :=
  if m.any fun e => decide (e.1 = k) then
    m.map fun e => if e.1 = k then (k, v) else e
  else m ++ [(k, v)]

/-- HashMap collected from an iterator of pairs: later keys overwrite. -/
def hmFromList [DecidableEq κ] (l : List (κ × α)) : List (κ × α) :=
  l.foldl (fun m e => hmInsert m e.1 e.2) []

/-- Replace the value of an existing key, leaving other entries unchanged. -/
def hmUpdate [DecidableEq κ] (m : List (κ × α)) (k : κ) (v : α) : List (κ × α) :=
  m.map fun e => if e.1 = k then (k, v) else e

/-- Sequencing of fallible computations over a list, modelling collecting an
iterator of Results: the first error aborts. -/
def optionMapM (f : α → Option β) : List α → Option (List β)
  | [] => some []
  | a :: as =>
    match f a with
    | none => none
    | some b => (optionMapM f as).map (b :: ·)

/-! ## Value model: declared state (rust_team_data::v1 as used by mod.rs) -/

/-- v1::RepoPermission. -/
inductive RepoPermissionV1 where
  | write
  | admin
  | maintain
  | triage
deriving DecidableEq

/-- api::RepoPermission. -/
inductive RepoPermission where
  | triage
  | write
  | maintain
  | admin
deriving DecidableEq

/-- convert_permission from mod.rs. -/
def convert_permission : RepoPermissionV1 → RepoPermission
  | RepoPermissionV1.write => RepoPermission.write
  | RepoPermissionV1.admin => RepoPermission.admin
  | RepoPermissionV1.maintain => RepoPermission.maintain
  | RepoPermissionV1.triage => RepoPermission.triage

/-- v1::Bot. -/
inductive Bot where
  | bors
  | highfive
  | rustTimer
  | rustbot
  | rfcbot
  | craterbot
  | glacierbot
  | logAnalyzer
  | renovate
deriving DecidableEq

/-- bot_user_name from mod.rs: none when the bot is a GitHub app rather than
a bot user. -/
def bot_user_name : Bot → Option String
  | Bot.bors => some "bors"
  | Bot.highfive => some "rust-highfive"
  | Bot.rustTimer => some "rust-timer"
  | Bot.rustbot => some "rustbot"
  | Bot.rfcbot => some "rfcbot"
  | Bot.craterbot => some "craterbot"
  | Bot.glacierbot => some "rust-lang-glacier-bot"
  | Bot.logAnalyzer => some "rust-log-analyzer"
  | Bot.renovate => none

/-- v1::MergeBot. -/
inductive MergeBot where
  | homu
  | rustTimer
deriving DecidableEq

/-- v1::BranchProtectionMode. -/
inductive BranchProtectionMode where
  | prRequired (required_approvals : Nat) (ci_checks : List String)
  | prNotRequired
deriving DecidableEq

/-- v1::BranchProtection, the declared form. -/
structure BranchProtectionDecl where
  pattern : String
  dismiss_stale_review : Bool
  mode : BranchProtectionMode
  allowed_merge_teams : List String
  merge_bots : List MergeBot
deriving DecidableEq

/-- v1::RepoTeam: a declared team permission on a repo. -/
structure RepoTeamDecl where
  name : String
  permission : RepoPermissionV1
deriving DecidableEq

/-- v1::RepoMember: a declared user permission on a repo. -/
structure RepoMemberDecl where
  name : String
  permission : RepoPermissionV1
deriving DecidableEq

/-- v1::Repo, the declared repository (the fields mod.rs reads). -/
structure Repo where
  org : String
  name : String
  description : String
  homepage : Option String
  archived : Bool
  auto_merge_enabled : Bool
  teams : List RepoTeamDecl
  members : List RepoMemberDecl
  bots : List Bot
  branch_protections : List BranchProtectionDecl
deriving DecidableEq

/-- v1::GitHubTeam: a declared GitHub team with its member ids. -/
structure GitHubTeam where
  org : String
  name : String
  members : List Nat
deriving DecidableEq

/-- v1::TeamGitHub: the GitHub binding of a declared team. -/
structure TeamGitHub where
  teams : List GitHubTeam
deriving DecidableEq

/-- v1::Team (the only field mod.rs reads is the optional GitHub binding). -/
structure Team where
  github : Option TeamGitHub
deriving DecidableEq

/-! ## Value model: observed state (api types as used by mod.rs) -/

/-- api::TeamPrivacy. -/
inductive TeamPrivacy where
  | secret
  | closed
deriving DecidableEq

/-- api::TeamRole. -/
inductive TeamRole where
  | member
  | maintainer
deriving DecidableEq

/-- api::Login, the wrapper around an organization login. -/
structure Login where
  login : String
deriving DecidableEq

/-- api::TeamPushAllowanceActor. -/
structure TeamPushAllowanceActor where
  organization : Login
  name : String
deriving DecidableEq

/-- api::UserPushAllowanceActor. -/
structure UserPushAllowanceActor where
  login : String
deriving DecidableEq

/-- api::AppPushAllowanceActor: opaque provider-side data, modelled by its
name. App actors are only ever observed, never produced by the projector. -/
structure AppPushAllowanceActor where
  name : String
deriving DecidableEq

/-- api::PushAllowanceActor. -/
inductive PushAllowanceActor where
  | team (t : TeamPushAllowanceActor)
  | user (u : UserPushAllowanceActor)
  | app (a : AppPushAllowanceActor)
deriving DecidableEq

/-- Whether an actor is a GitHub App actor (the matches! test in mod.rs). -/
def is_app : PushAllowanceActor → Bool
  | PushAllowanceActor.app _ => true
  | _ => false

/-- api::BranchProtection, the canonical (observed or projected) form. -/
structure ApiBranchProtection where
  pattern : String
  is_admin_enforced : Bool
  dismisses_stale_reviews : Bool
  required_approving_review_count : Nat
  required_status_check_contexts : List String
  push_allowances : List PushAllowanceActor
  requires_approving_reviews : Bool
deriving DecidableEq

/-- api::RepoSettings. -/
structure RepoSettings where
  description : String
  homepage : Option String
  archived : Bool
  auto_merge_enabled : Bool
deriving DecidableEq

/-- api::Repo, the observed repository (the fields mod.rs reads). -/
structure ApiRepo where
  name : String
  org : String
  description : String
  homepage : Option String
  archived : Bool
  allow_auto_merge : Option Bool
  node_id : String
deriving DecidableEq

/-- api::RepoTeam, an observed team permission entry. -/
structure RepoTeam where
  name : String
  permission : RepoPermission
deriving DecidableEq

/-- api::RepoUser, an observed collaborator permission entry. -/
structure RepoUser where
  name : String
  permission : RepoPermission
deriving DecidableEq

/-- api::Team, the observed team (the fields mod.rs reads). -/
structure ApiTeam where
  name : String
  description : Option String
  privacy : TeamPrivacy
deriving DecidableEq

/-- An observed team membership entry (api::Membership): username and role. -/
structure TeamMember where
  username : String
  role : TeamRole
deriving DecidableEq

/-- The observed provider state behind the Read capability. Each field is one
read operation; transport errors are not modelled (the state is given). -/
structure GithubState where
  user_name : Nat → Option String
  org_owners_set : String → List Nat
  org_teams : String → List (String × String)
  team : String → String → Option ApiTeam
  team_memberships : String → String → List (Nat × TeamMember)
  team_membership_invitations : String → String → List String
  repo : String → String → Option ApiRepo
  repo_teams : String → String → List RepoTeam
  repo_collaborators : String → String → List RepoUser
  branch_protections : String → String → List (String × String × ApiBranchProtection)
  uses_pat : Bool

/-! ## Branch Protection Projector: construct_branch_protection -/

/-- DEFAULT_DESCRIPTION from mod.rs. -/
def DEFAULT_DESCRIPTION : String := "Managed by the rust-lang/team repository."

/-- DEFAULT_PRIVACY from mod.rs. -/
def DEFAULT_PRIVACY : TeamPrivacy := TeamPrivacy.closed

/-- The special bot teams (BOTS_TEAMS in mod.rs). -/
def BOTS_TEAMS : List String := ["bors", "highfive", "rfcbot", "bots"]

/-- The required_approving_review_count of a protection mode: the source
converts the declared approval count to u8 and panics when it does not fit;
the panic is modelled as none. -/
def required_review_count : BranchProtectionMode → Option Nat
  | BranchProtectionMode.prRequired required_approvals _ =>
    if required_approvals ≤ 255 then some required_approvals else none
  | BranchProtectionMode.prNotRequired => some 0

/-- The effective protection mode: forced to PrNotRequired when any merge
bots manage the branch (the branch_protection_mode binding in
construct_branch_protection). -/
def effective_mode (branch_protection : BranchProtectionDecl) : BranchProtectionMode :=
  if branch_protection.merge_bots.isEmpty then branch_protection.mode
  else BranchProtectionMode.prNotRequired

/-- construct_branch_protection from mod.rs: projects a declared protection
into the canonical provider form. -/
def construct_branch_protection (expected_repo : Repo)
    (branch_protection : BranchProtectionDecl) : Option ApiBranchProtection :=
  let uses_merge_bot := !branch_protection.merge_bots.isEmpty
  let branch_protection_mode :=
    if uses_merge_bot then BranchProtectionMode.prNotRequired else branch_protection.mode
  (required_review_count branch_protection_mode).map fun required_approving_review_count =>
    let push_allowances : List PushAllowanceActor :=
      (branch_protection.allowed_merge_teams.map fun team =>
        PushAllowanceActor.team
          { organization := { login := expected_repo.org }, name := team })
      ++ branch_protection.merge_bots.map fun merge_bot =>
        match merge_bot with
        | MergeBot.homu => PushAllowanceActor.user { login := "bors" }
        | MergeBot.rustTimer => PushAllowanceActor.user { login := "rust-timer" }
    let checks :=
      match branch_protection_mode with
      | BranchProtectionMode.prRequired _ ci_checks => ci_checks
      | BranchProtectionMode.prNotRequired => []
    { pattern := branch_protection.pattern
      is_admin_enforced := true
      dismisses_stale_reviews := branch_protection.dismiss_stale_review
      required_approving_review_count := required_approving_review_count
      required_status_check_contexts := sortStrings checks
      push_allowances := push_allowances
      requires_approving_reviews :=
        match branch_protection_mode with
        | BranchProtectionMode.prRequired _ _ => true
        | BranchProtectionMode.prNotRequired => false }

/-! ## Diff value model -/

/-- RepoPermissionDiff from mod.rs. -/
inductive RepoPermissionDiff where
  | create (p : RepoPermission)
  | update (old new : RepoPermission)
  | delete (p : RepoPermission)
deriving DecidableEq

/-- Whether a permission diff is a Delete. -/
def RepoPermissionDiff.is_delete : RepoPermissionDiff → Bool
  | RepoPermissionDiff.delete _ => true
  | _ => false

/-- RepoCollaborator from mod.rs. -/
inductive RepoCollaborator where
  | team (name : String)
  | user (name : String)
deriving DecidableEq

/-- Whether a collaborator entry names a team. -/
def RepoCollaborator.is_team : RepoCollaborator → Bool
  | RepoCollaborator.team _ => true
  | RepoCollaborator.user _ => false

/-- RepoPermissionAssignmentDiff from mod.rs. -/
structure RepoPermissionAssignmentDiff where
  collaborator : RepoCollaborator
  diff : RepoPermissionDiff
deriving DecidableEq

/-- BranchProtectionDiffOperation from mod.rs. -/
inductive BranchProtectionDiffOperation where
  | create (bp : ApiBranchProtection)
  | update (id : String) (old new : ApiBranchProtection)
  | delete (id : String)
deriving DecidableEq

/-- BranchProtectionDiff from mod.rs. -/
structure BranchProtectionDiff where
  pattern : String
  operation : BranchProtectionDiffOperation
deriving DecidableEq

/-- CreateRepoDiff from mod.rs. -/
structure CreateRepoDiff where
  org : String
  name : String
  settings : RepoSettings
  permissions : List RepoPermissionAssignmentDiff
  branch_protections : List (String × ApiBranchProtection)
deriving DecidableEq

/-- UpdateRepoDiff from mod.rs; settings_diff is the pair of old and new
settings. -/
structure UpdateRepoDiff where
  org : String
  name : String
  repo_node_id : String
  settings_diff : RepoSettings × RepoSettings
  permission_diffs : List RepoPermissionAssignmentDiff
  branch_protection_diffs : List BranchProtectionDiff
deriving DecidableEq

/-- RepoDiff from mod.rs. -/
inductive RepoDiff where
  | create (c : CreateRepoDiff)
  | update (u : UpdateRepoDiff)
deriving DecidableEq

/-- MemberDiff from mod.rs. -/
inductive MemberDiff where
  | create (role : TeamRole)
  | changeRole (roles : TeamRole × TeamRole)
  | delete
  | noop
deriving DecidableEq

/-- MemberDiff::is_noop from mod.rs. -/
def MemberDiff.is_noop : MemberDiff → Bool
  | MemberDiff.noop => true
  | _ => false

/-- CreateTeamDiff from mod.rs. -/
structure CreateTeamDiff where
  org : String
  name : String
  description : String
  privacy : TeamPrivacy
  members : List (String × TeamRole)
deriving DecidableEq

/-- EditTeamDiff from mod.rs. -/
structure EditTeamDiff where
  org : String
  name : String
  name_diff : Option String
  description_diff : Option (String × String)
  privacy_diff : Option (TeamPrivacy × TeamPrivacy)
  member_diffs : List (String × MemberDiff)
deriving DecidableEq

/-- DeleteTeamDiff from mod.rs. -/
structure DeleteTeamDiff where
  org : String
  name : String
  slug : String
deriving DecidableEq

/-- TeamDiff from mod.rs. -/
inductive TeamDiff where
  | create (c : CreateTeamDiff)
  | edit (e : EditTeamDiff)
  | delete (d : DeleteTeamDiff)
deriving DecidableEq

/-- The Diff hand-off value from mod.rs. -/
structure Diff where
  team_diffs : List TeamDiff
  repo_diffs : List RepoDiff
deriving DecidableEq

/-! ## Noop predicates (the noop methods in mod.rs) -/

/-- EditTeamDiff::noop. -/
def EditTeamDiff.noop (e : EditTeamDiff) : Bool :=
  e.name_diff.isNone && e.description_diff.isNone && e.privacy_diff.isNone
    && e.member_diffs.all fun d => d.2.is_noop

/-- TeamDiff::noop. -/
def TeamDiff.noop : TeamDiff → Bool
  | TeamDiff.create _ => false
  | TeamDiff.delete _ => false
  | TeamDiff.edit e => e.noop

/-- UpdateRepoDiff::can_be_modified: an archived repository that stays
archived must not be touched. -/
def UpdateRepoDiff.can_be_modified (u : UpdateRepoDiff) : Bool :=
  !(u.settings_diff.2.archived && u.settings_diff.1.archived)

/-- UpdateRepoDiff::noop. -/
def UpdateRepoDiff.noop (u : UpdateRepoDiff) : Bool :=
  if !u.can_be_modified then true
  else
    decide (u.settings_diff.1 = u.settings_diff.2)
      && u.permission_diffs.isEmpty && u.branch_protection_diffs.isEmpty

/-- RepoDiff::noop. -/
def RepoDiff.noop : RepoDiff → Bool
  | RepoDiff.create _ => false
  | RepoDiff.update u => u.noop

/-! ## Diff application, modelled as the trace of Write-capability calls -/

/-- The create-or-update tag of the branch-protection upsert entry point. -/
inductive BranchProtectionOp where
  | createForRepo (node_id : String)
  | updateBranchProtection (id : String)
deriving DecidableEq

/-- One Write-capability call, in the order apply issues them. -/
inductive WriteCall where
  | editRepo (org name : String) (settings : RepoSettings)
  | updateTeamRepoPermissions (org repo team : String) (permission : RepoPermission)
  | updateUserRepoPermissions (org repo user : String) (permission : RepoPermission)
  | removeTeamFromRepo (org repo team : String)
  | removeCollaboratorFromRepo (org repo user : String)
  | upsertBranchProtection (op : BranchProtectionOp) (pattern : String)
      (bp : ApiBranchProtection) (org : String)
  | deleteBranchProtection (org repo id : String)
deriving DecidableEq

/-- Whether a write call is an edit_repo call. -/
def WriteCall.is_edit_repo : WriteCall → Bool
  | WriteCall.editRepo _ _ _ => true
  | _ => false

/-- RepoPermissionAssignmentDiff::apply: each permission diff issues exactly
one write call. -/
def RepoPermissionAssignmentDiff.applyCalls (d : RepoPermissionAssignmentDiff)
    (org repo_name : String) : List WriteCall :=
  match d.diff with
  | RepoPermissionDiff.create p | RepoPermissionDiff.update _ p =>
    match d.collaborator with
    | RepoCollaborator.team team_name =>
      [WriteCall.updateTeamRepoPermissions org repo_name team_name p]
    | RepoCollaborator.user user_name =>
      [WriteCall.updateUserRepoPermissions org repo_name user_name p]
  | RepoPermissionDiff.delete _ =>
    match d.collaborator with
    | RepoCollaborator.team team_name =>
      [WriteCall.removeTeamFromRepo org repo_name team_name]
    | RepoCollaborator.user user_name =>
      [WriteCall.removeCollaboratorFromRepo org repo_name user_name]

/-- BranchProtectionDiff::apply: each branch-protection diff issues exactly
one write call. -/
def BranchProtectionDiff.applyCalls (d : BranchProtectionDiff)
    (org repo_name repo_id : String) : List WriteCall :=
  match d.operation with
  | BranchProtectionDiffOperation.create bp =>
    [WriteCall.upsertBranchProtection (BranchProtectionOp.createForRepo repo_id) d.pattern bp org]
  | BranchProtectionDiffOperation.update id _ bp =>
    [WriteCall.upsertBranchProtection (BranchProtectionOp.updateBranchProtection id) d.pattern bp org]
  | BranchProtectionDiffOperation.delete id =>
    [WriteCall.deleteBranchProtection org repo_name id]

/-- UpdateRepoDiff::apply: the ordered trace of write calls. The fast-skip
guard returns with no calls; an unarchive writes the new settings first,
otherwise changed settings are written last. -/
def UpdateRepoDiff.applyCalls (u : UpdateRepoDiff) : List WriteCall :=
  if !u.can_be_modified then []
  else
    let is_unarchive := u.settings_diff.1.archived && !u.settings_diff.2.archived
    (if is_unarchive then [WriteCall.editRepo u.org u.name u.settings_diff.2] else [])
      ++ (u.permission_diffs.flatMap fun p => p.applyCalls u.org u.name)
      ++ (u.branch_protection_diffs.flatMap fun b => b.applyCalls u.org u.name u.repo_node_id)
      ++ (if !is_unarchive && decide (u.settings_diff.1 ≠ u.settings_diff.2)
          then [WriteCall.editRepo u.org u.name u.settings_diff.2] else [])

/-! ## Permission Resolver: calculate_permission_diffs -/

/-- The first loop of calculate_permission_diffs: reconcile each declared
team against the observed team map, removing matched entries. Returns the
diffs in declared order and the unmatched observed entries. -/
def team_permission_loop :
    List RepoTeamDecl → List (String × RepoTeam) →
      List RepoPermissionAssignmentDiff × List (String × RepoTeam)
  | [], actual_teams => ([], actual_teams)
  | expected_team :: rest, actual_teams =>
    let permission := convert_permission expected_team.permission
    let actual_team := hmGet actual_teams expected_team.name
    let r := team_permission_loop rest (hmRemove actual_teams expected_team.name)
    match actual_team with
    | some t =>
      if t.permission ≠ permission then
        (⟨RepoCollaborator.team expected_team.name,
          RepoPermissionDiff.update t.permission permission⟩ :: r.1, r.2)
      else (r.1, r.2)
    | none =>
      (⟨RepoCollaborator.team expected_team.name,
        RepoPermissionDiff.create permission⟩ :: r.1, r.2)

/-- The bots-and-members loop of calculate_permission_diffs: reconcile each
(name, permission) pair against the observed collaborator map. -/
def collaborator_permission_loop :
    List (String × RepoPermission) → List (String × RepoUser) →
      List RepoPermissionAssignmentDiff × List (String × RepoUser)
  | [], actual_collaborators => ([], actual_collaborators)
  | (name, permission) :: rest, actual_collaborators =>
    let actual_collaborator := hmGet actual_collaborators name
    let r := collaborator_permission_loop rest (hmRemove actual_collaborators name)
    match actual_collaborator with
    | some t =>
      if t.permission ≠ permission then
        (⟨RepoCollaborator.user name,
          RepoPermissionDiff.update t.permission permission⟩ :: r.1, r.2)
      else (r.1, r.2)
    | none =>
      (⟨RepoCollaborator.user name, RepoPermissionDiff.create permission⟩ :: r.1, r.2)

/-- calculate_permission_diffs from mod.rs. The lazy bot iterator removes
bot-named team entries before the leftover-team sweep runs, so the removals
are performed eagerly here; the observed-team map is not read in between. -/
def calculate_permission_diffs (expected_repo : Repo)
    (actual_teams : List (String × RepoTeam))
    (actual_collaborators : List (String × RepoUser)) :
    List RepoPermissionAssignmentDiff :=
  let team_result := team_permission_loop expected_repo.teams actual_teams
  let bot_names := expected_repo.bots.filterMap bot_user_name
  let remaining_teams := bot_names.foldl hmRemove team_result.2
  let bot_entries := bot_names.map fun name => (name, RepoPermission.write)
  let member_entries :=
    expected_repo.members.map fun m => (m.name, convert_permission m.permission)
  let collaborator_result :=
    collaborator_permission_loop (bot_entries ++ member_entries) actual_collaborators
  let team_deletions := remaining_teams.filterMap fun e =>
    if e.2.name = "security" ∧ expected_repo.org = "rust-lang" then none
    else some ⟨RepoCollaborator.team e.1, RepoPermissionDiff.delete e.2.permission⟩
  let collaborator_deletions := collaborator_result.2.map fun e =>
    (⟨RepoCollaborator.user e.1, RepoPermissionDiff.delete e.2.permission⟩ :
      RepoPermissionAssignmentDiff)
  team_result.1 ++ collaborator_result.1 ++ team_deletions ++ collaborator_deletions

/-! ## Branch Protection Differ: diff_branch_protections -/

/-- The declared-protections loop of diff_branch_protections: each declared
protection removes its observed counterpart, is projected, receives the
observed App push allowances, and is compared. Returns the diffs in declared
order and the observed protections that matched no declared pattern. -/
def diffBpLoop (expected_repo : Repo) :
    List BranchProtectionDecl → List (String × String × ApiBranchProtection) →
      Option (List BranchProtectionDiff × List (String × String × ApiBranchProtection))
  | [], actual_protections => some ([], actual_protections)
  | branch_protection :: rest, actual_protections =>
    let actual_branch_protection := hmGet actual_protections branch_protection.pattern
    match construct_branch_protection expected_repo branch_protection with
    | none => none
    | some constructed =>
      let expected_branch_protection :=
        match actual_branch_protection with
        | some (_, actual) =>
          { constructed with
            push_allowances :=
              constructed.push_allowances ++ actual.push_allowances.filter is_app }
        | none => constructed
      match diffBpLoop expected_repo rest (hmRemove actual_protections branch_protection.pattern) with
      | none => none
      | some (diffs, leftover) =>
        match actual_branch_protection with
        | some (database_id, bp) =>
          if bp ≠ expected_branch_protection then
            some (⟨branch_protection.pattern,
              BranchProtectionDiffOperation.update database_id bp expected_branch_protection⟩
                :: diffs, leftover)
          else some (diffs, leftover)
        | none =>
          some (⟨branch_protection.pattern,
            BranchProtectionDiffOperation.create expected_branch_protection⟩ :: diffs, leftover)

/-- diff_branch_protections from mod.rs, including the PAT-less special case
for rust-lang/rust and the trailing deletions of unmatched observed
protections. -/
def diff_branch_protections (st : GithubState) (actual_repo : ApiRepo)
    (expected_repo : Repo) : Option (List BranchProtectionDiff) :=
  if st.uses_pat = false ∧ actual_repo.org = "rust-lang" ∧ actual_repo.name = "rust" then
    some []
  else
    let actual_protections :=
      hmFromList (st.branch_protections actual_repo.org actual_repo.name)
    match diffBpLoop expected_repo expected_repo.branch_protections actual_protections with
    | none => none
    | some (diffs, leftover) =>
      some (diffs ++ leftover.map fun e =>
        ⟨e.1, BranchProtectionDiffOperation.delete e.2.1⟩)

/-! ## Repo differ -/

/-- diff_permissions from mod.rs: fetch the observed team and collaborator
permission maps (keyed by name) and resolve. -/
def diff_permissions (st : GithubState) (expected_repo : Repo) :
    List RepoPermissionAssignmentDiff :=
  let actual_teams :=
    hmFromList ((st.repo_teams expected_repo.org expected_repo.name).map fun t => (t.name, t))
  let actual_collaborators :=
    hmFromList
      ((st.repo_collaborators expected_repo.org expected_repo.name).map fun u => (u.name, u))
  calculate_permission_diffs expected_repo actual_teams actual_collaborators

/-- diff_repo from mod.rs: a Create for an absent repo (archived forced to
false on creation), an Update otherwise. -/
def diff_repo (st : GithubState) (expected_repo : Repo) : Option RepoDiff :=
  match st.repo expected_repo.org expected_repo.name with
  | none =>
    let permissions := calculate_permission_diffs expected_repo [] []
    match optionMapM (fun branch_protection =>
        (construct_branch_protection expected_repo branch_protection).map fun bp =>
          (branch_protection.pattern, bp)) expected_repo.branch_protections with
    | none => none
    | some branch_protections =>
      some (RepoDiff.create
        { org := expected_repo.org
          name := expected_repo.name
          settings :=
            { description := expected_repo.description
              homepage := expected_repo.homepage
              archived := false
              auto_merge_enabled := expected_repo.auto_merge_enabled }
          permissions := permissions
          branch_protections := branch_protections })
  | some actual_repo =>
    let permission_diffs := diff_permissions st expected_repo
    match diff_branch_protections st actual_repo expected_repo with
    | none => none
    | some branch_protection_diffs =>
      some (RepoDiff.update
        { org := expected_repo.org
          name := actual_repo.name
          repo_node_id := actual_repo.node_id
          settings_diff :=
            ({ description := actual_repo.description
               homepage := actual_repo.homepage
               archived := actual_repo.archived
               auto_merge_enabled := actual_repo.allow_auto_merge.getD false },
             { description := expected_repo.description
               homepage := expected_repo.homepage
               archived := expected_repo.archived
               auto_merge_enabled := expected_repo.auto_merge_enabled })
          permission_diffs := permission_diffs
          branch_protection_diffs := branch_protection_diffs })

/-- diff_repos from mod.rs: diff every declared repo, keeping only non-noop
diffs. -/
def diff_repos (st : GithubState) (repos : List Repo) : Option (List RepoDiff) :=
  match optionMapM (diff_repo st) repos with
  | none => none
  | some diffs => some (diffs.filter fun repo_diff => !repo_diff.noop)

/-! ## Team differ -/

/-- The flattened list of declared GitHub teams, in declaration order. -/
def declaredGithubTeams (teams : List Team) : List GitHubTeam :=
  teams.flatMap fun t =>
    match t.github with
    | some gh => gh.teams
    | none => []

/-- The username cache built at engine start: the provider usernames of the
union of all declared members (users unknown to the provider are absent). -/
def usernames_cache_of (st : GithubState) (teams : List Team) : List (Nat × String) :=
  ((declaredGithubTeams teams).flatMap fun gt => gt.members).dedup.filterMap fun user =>
    (st.user_name user).map fun username => (user, username)

/-- The org-owner map built at engine start, one entry per referenced org. -/
def org_owners_of (st : GithubState) (teams : List Team) : List (String × List Nat) :=
  ((declaredGithubTeams teams).map fun gt => gt.org).dedup.map fun org =>
    (org, st.org_owners_set org)

/-- expected_role from mod.rs: org owners become maintainers. -/
def expected_role (org_owners : List (String × List Nat)) (org : String) (user : Nat) :
    TeamRole :=
  match hmGet org_owners org with
  | some owners => if owners.contains user then TeamRole.maintainer else TeamRole.member
  | none => TeamRole.member

/-- The member loop of diff_team: reconcile each declared member against the
observed membership map (a cache miss is the source's panic, modelled as
none); returns the member diffs in declared order and the observed members
that were not re-encountered. -/
def member_diffs_loop (usernames_cache : List (Nat × String))
    (org_owners : List (String × List Nat)) (org : String) (invites : List String) :
    List Nat → List (Nat × TeamMember) →
      Option (List (String × MemberDiff) × List (Nat × TeamMember))
  | [], current_members => some ([], current_members)
  | member :: rest, current_members =>
    match hmGet usernames_cache member with
    | none => none
    | some username =>
      let expected := expected_role org_owners org member
      let found := hmGet current_members member
      match member_diffs_loop usernames_cache org_owners org invites rest
          (hmRemove current_members member) with
      | none => none
      | some (diffs, remaining) =>
        match found with
        | some m =>
          if m.role ≠ expected then
            some ((username, MemberDiff.changeRole (m.role, expected)) :: diffs, remaining)
          else some ((username, MemberDiff.noop) :: diffs, remaining)
        | none =>
          if invites.contains username then
            some ((username, MemberDiff.noop) :: diffs, remaining)
          else some ((username, MemberDiff.create expected) :: diffs, remaining)

/-- diff_team from mod.rs: a Create when the provider team is absent, an
Edit otherwise. -/
def diff_team (st : GithubState) (usernames_cache : List (Nat × String))
    (org_owners : List (String × List Nat)) (github_team : GitHubTeam) :
    Option TeamDiff :=
  match st.team github_team.org github_team.name with
  | none =>
    match optionMapM (fun member =>
        (hmGet usernames_cache member).map fun username =>
          (username, expected_role org_owners github_team.org member))
        github_team.members with
    | none => none
    | some members =>
      some (TeamDiff.create
        { org := github_team.org
          name := github_team.name
          description := DEFAULT_DESCRIPTION
          privacy := DEFAULT_PRIVACY
          members := members })
  | some team =>
    let name_diff := if team.name ≠ github_team.name then some github_team.name else none
    let description_diff :=
      match team.description with
      | some description =>
        if description ≠ DEFAULT_DESCRIPTION then some (description, DEFAULT_DESCRIPTION)
        else none
      | none => some ("", DEFAULT_DESCRIPTION)
    let privacy_diff :=
      if team.privacy ≠ DEFAULT_PRIVACY then some (team.privacy, DEFAULT_PRIVACY) else none
    let current_members := st.team_memberships github_team.org team.name
    let invites := st.team_membership_invitations github_team.org github_team.name
    match member_diffs_loop usernames_cache org_owners github_team.org invites
        github_team.members current_members with
    | none => none
    | some (member_diffs, remaining) =>
      some (TeamDiff.edit
        { org := github_team.org
          name := team.name
          name_diff := name_diff
          description_diff := description_diff
          privacy_diff := privacy_diff
          member_diffs :=
            member_diffs ++ remaining.map fun m => (m.2.username, MemberDiff.delete) })

/-- One step of the unseen-teams bookkeeping in diff_teams: on the first
declared team of an org the provider teams of that org are fetched into the
map; the declared team's name is then removed from its org's entry. -/
def stepUnseen (st : GithubState) (unseen : List (String × List (String × String)))
    (github_team : GitHubTeam) : List (String × List (String × String)) :=
  match hmGet unseen github_team.org with
  | some ts => hmUpdate unseen github_team.org (hmRemove ts github_team.name)
  | none =>
    unseen ++ [(github_team.org,
      hmRemove (hmFromList (st.org_teams github_team.org)) github_team.name)]

/-- The unseen-teams map after all declared teams have been processed. -/
def unseen_after (st : GithubState) (github_teams : List GitHubTeam) :
    List (String × List (String × String)) :=
  github_teams.foldl (stepUnseen st) []

/-- The Delete diffs of diff_teams: orgs restricted to the deletion
allowlist, the reserved bot teams never deleted, the provider slug carried. -/
def delete_diffs_of (unseen : List (String × List (String × String))) : List TeamDiff :=
  (unseen.filter fun e =>
      decide (e.1 = "rust-lang") || decide (e.1 = "rust-lang-nursery")).flatMap fun e =>
    (e.2.filter fun t => !(decide (t.1 ∈ BOTS_TEAMS))).map fun t =>
      TeamDiff.delete ⟨e.1, t.1, t.2⟩

/-- diff_teams from mod.rs: the per-team diffs (non-noop only, in declared
order) followed by the deletions of unmanaged provider teams. -/
def diff_teams (st : GithubState) (usernames_cache : List (Nat × String))
    (org_owners : List (String × List Nat)) (teams : List Team) :
    Option (List TeamDiff) :=
  let github_teams := declaredGithubTeams teams
  match optionMapM (diff_team st usernames_cache org_owners) github_teams with
  | none => none
  | some team_diffs =>
    some ((team_diffs.filter fun diff_team => !diff_team.noop)
      ++ delete_diffs_of (unseen_after st github_teams))

/-- create_diff from mod.rs: build the startup caches, then diff teams and
repos. -/
def create_diff (st : GithubState) (teams : List Team) (repos : List Repo) :
    Option Diff :=
  let usernames_cache := usernames_cache_of st teams
  let org_owners := org_owners_of st teams
  match diff_teams st usernames_cache org_owners teams with
  | none => none
  | some team_diffs =>
    match diff_repos st repos with
    | none => none
    | some repo_diffs => some { team_diffs := team_diffs, repo_diffs := repo_diffs }

/-! ## Claims about the projector -/

/-- A minimal declared repository used by concrete instances. -/
def repo_fixture : Repo :=
  { org := "acme", name := "r1", description := "", homepage := none,
    archived := false, auto_merge_enabled := false,
    teams := [], members := [], bots := [], branch_protections := [] }

/-- C6: a declared protection with any merge_bots projects to
requires_approving_reviews = false and required_approving_review_count = 0,
whatever mode the declaration specifies. -/
theorem merge_bot_coercion (expected_repo : Repo)
    (branch_protection : BranchProtectionDecl) (p : ApiBranchProtection)
    (hbots : branch_protection.merge_bots ≠ [])
    (hp : construct_branch_protection expected_repo branch_protection = some p) :
    p.requires_approving_reviews = false ∧ p.required_approving_review_count = 0 := by
  have hne : branch_protection.merge_bots.isEmpty = false := by
    cases hb : branch_protection.merge_bots with
    | nil => exact absurd hb hbots
    | cons a l => rfl
  simp only [construct_branch_protection, hne, Bool.not_false, if_pos,
    required_review_count, Option.map_eq_some'] at hp
  obtain ⟨count, hcount, hpeq⟩ := hp
  subst hpeq
  simp only [Option.some_inj] at hcount
  exact ⟨rfl, hcount.symm⟩

def bp_c6 : BranchProtectionDecl :=
  { pattern := "main", dismiss_stale_review := false,
    mode := BranchProtectionMode.prRequired 2 ["a"],
    allowed_merge_teams := [], merge_bots := [MergeBot.homu] }

def p_c6 : ApiBranchProtection :=
  { pattern := "main", is_admin_enforced := true, dismisses_stale_reviews := false,
    required_approving_review_count := 0, required_status_check_contexts := [],
    push_allowances := [PushAllowanceActor.user { login := "bors" }],
    requires_approving_reviews := false }

theorem merge_bot_coercion_witness :
    p_c6.requires_approving_reviews = false ∧ p_c6.required_approving_review_count = 0 :=
  merge_bot_coercion repo_fixture bp_c6 p_c6 (by decide) (by decide)

/-- C5 (amended): the projected count is zero iff the effective mode is
PrNotRequired, provided every declared PrRequired mode carries a positive
approval count (a declared PrRequired mode with zero approvals also projects
to count zero while its effective mode stays PrRequired). -/
theorem review_count_zero_iff (expected_repo : Repo)
    (branch_protection : BranchProtectionDecl) (p : ApiBranchProtection)
    (hp : construct_branch_protection expected_repo branch_protection = some p)
    (hpos : ∀ n checks, branch_protection.mode = BranchProtectionMode.prRequired n checks →
      0 < n) :
    (p.required_approving_review_count = 0 ↔
      effective_mode branch_protection = BranchProtectionMode.prNotRequired) := by
  obtain ⟨pat, dsr, mode, amt, mbs⟩ := branch_protection
  cases mbs with
  | cons b bs =>
    simp only [construct_branch_protection, List.isEmpty_cons, Bool.not_false, if_true,
      required_review_count, Option.map_some', Option.some_inj] at hp
    subst hp
    simp [effective_mode]
  | nil =>
    have heff : effective_mode ⟨pat, dsr, mode, amt, []⟩ = mode := by
      simp [effective_mode]
    cases mode with
    | prRequired n checks =>
      have hnpos := hpos n checks rfl
      by_cases hn : n ≤ 255
      · simp only [construct_branch_protection, List.isEmpty_nil, Bool.not_true,
          Bool.false_eq_true, if_false, required_review_count, if_pos hn,
          Option.map_some', Option.some_inj] at hp
        subst hp
        rw [heff]
        simp only []
        constructor
        · intro h0; omega
        · intro h0; exact absurd h0 (by simp)
      · simp only [construct_branch_protection, List.isEmpty_nil, Bool.not_true,
          Bool.false_eq_true, if_false, required_review_count, if_neg hn,
          Option.map_none'] at hp
        exact absurd hp (by simp)
    | prNotRequired =>
      simp only [construct_branch_protection, List.isEmpty_nil, Bool.not_true,
        Bool.false_eq_true, if_false, required_review_count,
        Option.map_some', Option.some_inj] at hp
      subst hp
      rw [heff]
      simp

def bp_c5 : BranchProtectionDecl :=
  { pattern := "main", dismiss_stale_review := false,
    mode := BranchProtectionMode.prRequired 0 [],
    allowed_merge_teams := [], merge_bots := [] }

/-- C5 counterexample: a declared PrRequired protection with zero required
approvals and no merge bots projects to required_approving_review_count = 0
although its effective mode is PrRequired, so the claimed iff fails. -/
theorem review_count_zero_iff_counterexample :
    (construct_branch_protection repo_fixture bp_c5).map
        ApiBranchProtection.required_approving_review_count = some 0
    ∧ effective_mode bp_c5 ≠ BranchProtectionMode.prNotRequired := by decide

def bp_c5w : BranchProtectionDecl :=
  { pattern := "main", dismiss_stale_review := false,
    mode := BranchProtectionMode.prRequired 2 ["ci"],
    allowed_merge_teams := [], merge_bots := [] }

def p_c5w : ApiBranchProtection :=
  { pattern := "main", is_admin_enforced := true, dismisses_stale_reviews := false,
    required_approving_review_count := 2, required_status_check_contexts := ["ci"],
    push_allowances := [], requires_approving_reviews := true }

theorem review_count_zero_iff_witness :
    (p_c5w.required_approving_review_count = 0 ↔
      effective_mode bp_c5w = BranchProtectionMode.prNotRequired) :=
  review_count_zero_iff repo_fixture bp_c5w p_c5w (by decide)
    (fun n checks h => by
      simp only [bp_c5w] at h
      injection h with h1 h2
      omega)

/-- C8: permuting the ci_checks of a declared protection produces an
identical projected protection, and the projected
required_status_check_contexts list is always sorted ascending. -/
theorem ci_checks_sort_stable (expected_repo : Repo) (pattern : String)
    (dismiss : Bool) (allowed_merge_teams : List String) (merge_bots : List MergeBot)
    (n : Nat) (checks checks' : List String) (hperm : checks.Perm checks')
    (branch_protection : BranchProtectionDecl) (p : ApiBranchProtection)
    (hp : construct_branch_protection expected_repo branch_protection = some p) :
    construct_branch_protection expected_repo
        ⟨pattern, dismiss, BranchProtectionMode.prRequired n checks,
          allowed_merge_teams, merge_bots⟩
      = construct_branch_protection expected_repo
        ⟨pattern, dismiss, BranchProtectionMode.prRequired n checks',
          allowed_merge_teams, merge_bots⟩
    ∧ p.required_status_check_contexts.Sorted strLeP := by
  constructor
  · cases merge_bots with
    | cons b bs => rfl
    | nil =>
      simp only [construct_branch_protection, List.isEmpty_nil, Bool.not_true,
        Bool.false_eq_true, if_false]
      rw [sortStrings_perm_eq hperm]
      rfl
  · obtain ⟨pat, dsr, mode, amt, mbs⟩ := branch_protection
    cases mbs with
    | cons b bs =>
      simp only [construct_branch_protection, List.isEmpty_cons, Bool.not_false, if_true,
        required_review_count, Option.map_some', Option.some_inj] at hp
      subst hp
      exact sortStrings_sorted _
    | nil =>
      cases mode with
      | prRequired m cks =>
        by_cases hn : m ≤ 255
        · simp only [construct_branch_protection, List.isEmpty_nil, Bool.not_true,
            Bool.false_eq_true, if_false, required_review_count, if_pos hn,
            Option.map_some', Option.some_inj] at hp
          subst hp
          exact sortStrings_sorted _
        · simp only [construct_branch_protection, List.isEmpty_nil, Bool.not_true,
            Bool.false_eq_true, if_false, required_review_count, if_neg hn,
            Option.map_none'] at hp
          exact absurd hp (by simp)
      | prNotRequired =>
        simp only [construct_branch_protection, List.isEmpty_nil, Bool.not_true,
          Bool.false_eq_true, if_false, required_review_count,
          Option.map_some', Option.some_inj] at hp
        subst hp
        exact sortStrings_sorted _

def bp_c8 : BranchProtectionDecl :=
  { pattern := "main", dismiss_stale_review := true,
    mode := BranchProtectionMode.prRequired 2 ["b", "a"],
    allowed_merge_teams := [], merge_bots := [] }

def p_c8 : ApiBranchProtection :=
  { pattern := "main", is_admin_enforced := true, dismisses_stale_reviews := true,
    required_approving_review_count := 2, required_status_check_contexts := ["a", "b"],
    push_allowances := [], requires_approving_reviews := true }

theorem ci_checks_sort_stable_witness :
    (construct_branch_protection repo_fixture
        ⟨"main", true, BranchProtectionMode.prRequired 2 ["b", "a"], [], []⟩
      = construct_branch_protection repo_fixture
        ⟨"main", true, BranchProtectionMode.prRequired 2 ["a", "b"], [], []⟩)
    ∧ p_c8.required_status_check_contexts.Sorted strLeP :=
  ci_checks_sort_stable repo_fixture "main" true [] [] 2 ["b", "a"] ["a", "b"]
    (by decide) bp_c8 p_c8 (by decide)

/-! ## Claims about diff application -/

/-- Every write call a permission diff issues is a permission write, never
an edit_repo call. -/
theorem perm_applyCalls_not_edit (d : RepoPermissionAssignmentDiff) (org repo_name : String) :
    ∀ c ∈ d.applyCalls org repo_name, c.is_edit_repo = false := by
  intro c hc
  obtain ⟨col, df⟩ := d
  cases df <;> cases col <;>
    simp only [RepoPermissionAssignmentDiff.applyCalls, List.mem_singleton] at hc <;>
    subst hc <;> rfl

/-- Every write call a branch-protection diff issues is a branch-protection
write, never an edit_repo call. -/
theorem bp_applyCalls_not_edit (d : BranchProtectionDiff) (org repo_name repo_id : String) :
    ∀ c ∈ d.applyCalls org repo_name repo_id, c.is_edit_repo = false := by
  intro c hc
  obtain ⟨pat, op⟩ := d
  cases op <;>
    simp only [BranchProtectionDiff.applyCalls, List.mem_singleton] at hc <;>
    subst hc <;> rfl

/-- The permission and branch-protection sections of an Update apply trace
contain no edit_repo call. -/
theorem middle_calls_no_edit (u : UpdateRepoDiff) :
    ((u.permission_diffs.flatMap fun p => p.applyCalls u.org u.name).countP
        fun c => c.is_edit_repo) = 0
    ∧ ((u.branch_protection_diffs.flatMap fun b =>
          b.applyCalls u.org u.name u.repo_node_id).countP fun c => c.is_edit_repo) = 0 := by
  constructor
  · rw [List.countP_eq_zero]
    intro c hc
    rw [List.mem_flatMap] at hc
    obtain ⟨p, _, hcp⟩ := hc
    simp [perm_applyCalls_not_edit p u.org u.name c hcp]
  · rw [List.countP_eq_zero]
    intro c hc
    rw [List.mem_flatMap] at hc
    obtain ⟨b, _, hcb⟩ := hc
    simp [bp_applyCalls_not_edit b u.org u.name u.repo_node_id c hcb]

/-- C1: when both the old and the new settings are archived, apply issues no
write calls at all (and hence cannot fail), whatever permission and
branch-protection diffs the Update carries. -/
theorem archive_freeze_no_writes (u : UpdateRepoDiff)
    (h_old : u.settings_diff.1.archived = true)
    (h_new : u.settings_diff.2.archived = true) :
    u.applyCalls = [] := by
  simp [UpdateRepoDiff.applyCalls, UpdateRepoDiff.can_be_modified, h_old, h_new]

def settings_arch_a : RepoSettings :=
  { description := "", homepage := none, archived := true, auto_merge_enabled := false }

def settings_arch_b : RepoSettings :=
  { description := "d", homepage := none, archived := true, auto_merge_enabled := true }

def u_c1 : UpdateRepoDiff :=
  { org := "acme", name := "r1", repo_node_id := "n1",
    settings_diff := (settings_arch_a, settings_arch_b),
    permission_diffs :=
      [⟨RepoCollaborator.user "alice", RepoPermissionDiff.create RepoPermission.write⟩],
    branch_protection_diffs :=
      [⟨"main", BranchProtectionDiffOperation.delete "id0"⟩] }

theorem archive_freeze_no_writes_witness :
    u_c1.settings_diff.1.archived = true ∧ u_c1.settings_diff.2.archived = true
      ∧ u_c1.applyCalls = [] :=
  ⟨rfl, rfl, archive_freeze_no_writes u_c1 rfl rfl⟩

/-- C2: an Update that survives the archive fast-skip writes the new
settings first when it unarchives, and last when it does not unarchive and
the settings differ; in both cases the remaining trace is exactly the
permission writes followed by the branch-protection writes. -/
theorem unarchive_first_settings_last (u : UpdateRepoDiff)
    (h : u.can_be_modified = true) :
    (u.settings_diff.1.archived = true → u.settings_diff.2.archived = false →
      u.applyCalls = WriteCall.editRepo u.org u.name u.settings_diff.2 ::
        ((u.permission_diffs.flatMap fun p => p.applyCalls u.org u.name)
          ++ u.branch_protection_diffs.flatMap fun b =>
              b.applyCalls u.org u.name u.repo_node_id))
    ∧ (¬(u.settings_diff.1.archived = true ∧ u.settings_diff.2.archived = false) →
        u.settings_diff.1 ≠ u.settings_diff.2 →
        u.applyCalls = ((u.permission_diffs.flatMap fun p => p.applyCalls u.org u.name)
          ++ u.branch_protection_diffs.flatMap fun b =>
              b.applyCalls u.org u.name u.repo_node_id)
          ++ [WriteCall.editRepo u.org u.name u.settings_diff.2]) := by
  constructor
  · intro h_old h_new
    simp [UpdateRepoDiff.applyCalls, h, h_old, h_new]
  · intro h_no hne
    have hun : (u.settings_diff.1.archived && !u.settings_diff.2.archived) = false := by
      cases h1 : u.settings_diff.1.archived <;> cases h2 : u.settings_diff.2.archived <;>
        simp_all
    simp [UpdateRepoDiff.applyCalls, h, hun, hne]

def settings_unarch_old : RepoSettings :=
  { description := "", homepage := none, archived := true, auto_merge_enabled := false }

def settings_unarch_new : RepoSettings :=
  { description := "", homepage := none, archived := false, auto_merge_enabled := false }

def settings_plain_old : RepoSettings :=
  { description := "old", homepage := none, archived := false, auto_merge_enabled := false }

def settings_plain_new : RepoSettings :=
  { description := "new", homepage := none, archived := false, auto_merge_enabled := false }

def u_c2a : UpdateRepoDiff :=
  { org := "acme", name := "r1", repo_node_id := "n1",
    settings_diff := (settings_unarch_old, settings_unarch_new),
    permission_diffs :=
      [⟨RepoCollaborator.user "alice", RepoPermissionDiff.create RepoPermission.write⟩],
    branch_protection_diffs := [] }

def u_c2b : UpdateRepoDiff :=
  { org := "acme", name := "r1", repo_node_id := "n1",
    settings_diff := (settings_plain_old, settings_plain_new),
    permission_diffs :=
      [⟨RepoCollaborator.user "alice", RepoPermissionDiff.create RepoPermission.write⟩],
    branch_protection_diffs := [] }

theorem unarchive_first_settings_last_witness :
    (u_c2a.applyCalls = WriteCall.editRepo u_c2a.org u_c2a.name u_c2a.settings_diff.2 ::
      ((u_c2a.permission_diffs.flatMap fun p => p.applyCalls u_c2a.org u_c2a.name)
        ++ u_c2a.branch_protection_diffs.flatMap fun b =>
            b.applyCalls u_c2a.org u_c2a.name u_c2a.repo_node_id))
    ∧ (u_c2b.applyCalls = ((u_c2b.permission_diffs.flatMap fun p =>
          p.applyCalls u_c2b.org u_c2b.name)
        ++ u_c2b.branch_protection_diffs.flatMap fun b =>
            b.applyCalls u_c2b.org u_c2b.name u_c2b.repo_node_id)
        ++ [WriteCall.editRepo u_c2b.org u_c2b.name u_c2b.settings_diff.2]) :=
  ⟨(unarchive_first_settings_last u_c2a (by decide)).1 (by decide) (by decide),
   (unarchive_first_settings_last u_c2b (by decide)).2 (by decide) (by decide)⟩

/-- C10 (amended): apply invokes edit_repo at most once, and exactly once
precisely when the Update is not fast-skipped and either unarchives or has
differing settings (the original claim omitted the fast-skip, under which a
non-unarchiving Update with differing settings issues no edit_repo call). -/
theorem edit_repo_at_most_once (u : UpdateRepoDiff) :
    (u.applyCalls.countP fun c => c.is_edit_repo) =
      (if u.can_be_modified = false then 0
       else if u.settings_diff.1.archived = true ∧ u.settings_diff.2.archived = false then 1
       else if u.settings_diff.1 = u.settings_diff.2 then 0 else 1)
    ∧ (u.applyCalls.countP fun c => c.is_edit_repo) ≤ 1 := by
  have hmid := middle_calls_no_edit u
  cases hcm : u.can_be_modified with
  | false =>
    have : u.applyCalls = [] := by simp [UpdateRepoDiff.applyCalls, hcm]
    simp [this, hcm]
  | true =>
    have htrace : u.applyCalls =
        (if u.settings_diff.1.archived && !u.settings_diff.2.archived
          then [WriteCall.editRepo u.org u.name u.settings_diff.2] else [])
        ++ (u.permission_diffs.flatMap fun p => p.applyCalls u.org u.name)
        ++ (u.branch_protection_diffs.flatMap fun b =>
              b.applyCalls u.org u.name u.repo_node_id)
        ++ (if !(u.settings_diff.1.archived && !u.settings_diff.2.archived)
              && decide (u.settings_diff.1 ≠ u.settings_diff.2)
            then [WriteCall.editRepo u.org u.name u.settings_diff.2] else []) := by
      simp [UpdateRepoDiff.applyCalls, hcm]
    rw [htrace]
    simp only [List.countP_append, hmid.1, hmid.2]
    cases h1 : u.settings_diff.1.archived <;> cases h2 : u.settings_diff.2.archived <;>
      by_cases heq : u.settings_diff.1 = u.settings_diff.2 <;>
      simp_all [hcm, List.countP, List.countP.go, WriteCall.is_edit_repo,
        UpdateRepoDiff.can_be_modified]

def u_c10 : UpdateRepoDiff :=
  { org := "acme", name := "r1", repo_node_id := "n1",
    settings_diff := (settings_arch_a, settings_arch_b),
    permission_diffs := [], branch_protection_diffs := [] }

/-- C10 counterexample: a fast-skipped Update (both settings archived)
whose settings differ does not unarchive, yet apply issues zero edit_repo
calls rather than exactly one. -/
theorem edit_repo_at_most_once_counterexample :
    ¬(u_c10.settings_diff.1.archived = true ∧ u_c10.settings_diff.2.archived = false)
    ∧ u_c10.settings_diff.1 ≠ u_c10.settings_diff.2
    ∧ (u_c10.applyCalls.countP fun c => c.is_edit_repo) = 0 := by decide


/-! ## Claims about the Permission Resolver -/

/-- The declared-teams loop emits only Create and Update diffs. -/
theorem team_permission_loop_no_delete :
    ∀ (expected_teams : List RepoTeamDecl) (actual_teams : List (String × RepoTeam)),
      ∀ d ∈ (team_permission_loop expected_teams actual_teams).1,
        d.diff.is_delete = false := by
  intro expected_teams
  induction expected_teams with
  | nil => intro actual_teams d hd; simp [team_permission_loop] at hd
  | cons et rest ih =>
    intro actual_teams d hd
    simp only [team_permission_loop] at hd
    split at hd
    · split at hd
      · rcases List.mem_cons.mp hd with hd | hd
        · subst hd; rfl
        · exact ih _ d hd
      · exact ih _ d hd
    · rcases List.mem_cons.mp hd with hd | hd
      · subst hd; rfl
      · exact ih _ d hd

/-- The declared-teams loop passes through leftover observed entries. -/
theorem team_permission_loop_leftover_subset :
    ∀ (expected_teams : List RepoTeamDecl) (actual_teams : List (String × RepoTeam)),
      (team_permission_loop expected_teams actual_teams).2 ⊆ actual_teams := by
  intro expected_teams
  induction expected_teams with
  | nil => intro actual_teams; simp [team_permission_loop]
  | cons et rest ih =>
    intro actual_teams
    have hsub : (team_permission_loop rest (hmRemove actual_teams et.name)).2 ⊆ actual_teams :=
      (ih (hmRemove actual_teams et.name)).trans (List.filter_subset' _)
    simp only [team_permission_loop]
    split
    · split
      · exact hsub
      · exact hsub
    · exact hsub

/-- The bots-and-members loop only names user collaborators. -/
theorem collaborator_permission_loop_user :
    ∀ (entries : List (String × RepoPermission))
      (actual_collaborators : List (String × RepoUser)),
      ∀ d ∈ (collaborator_permission_loop entries actual_collaborators).1,
        d.collaborator.is_team = false := by
  intro entries
  induction entries with
  | nil => intro acs d hd; simp [collaborator_permission_loop] at hd
  | cons e rest ih =>
    intro acs d hd
    obtain ⟨name, permission⟩ := e
    simp only [collaborator_permission_loop] at hd
    split at hd
    · split at hd
      · rcases List.mem_cons.mp hd with hd | hd
        · subst hd; rfl
        · exact ih _ d hd
      · exact ih _ d hd
    · rcases List.mem_cons.mp hd with hd | hd
      · subst hd; rfl
      · exact ih _ d hd

/-- Removing a list of keys keeps only original entries. -/
theorem foldl_hmRemove_subset [DecidableEq κ] :
    ∀ (names : List κ) (m : List (κ × α)), names.foldl hmRemove m ⊆ m := by
  intro names
  induction names with
  | nil => intro m; simp
  | cons n rest ih =>
    intro m
    exact (ih (hmRemove m n)).trans (List.filter_subset' _)

/-- C7: an observed security team in rust-lang that the declaration does not
mention is never given a Delete permission diff (the observed map is keyed
by team name, as its callers build it). -/
theorem security_team_never_deleted (expected_repo : Repo)
    (actual_teams : List (String × RepoTeam))
    (actual_collaborators : List (String × RepoUser))
    (horg : expected_repo.org = "rust-lang")
    (hkeys : ∀ e ∈ actual_teams, e.1 = e.2.name)
    (_hsec : ∃ e ∈ actual_teams, e.2.name = "security")
    (_habsent : ∀ t ∈ expected_repo.teams, t.name ≠ "security") :
    ∀ d ∈ calculate_permission_diffs expected_repo actual_teams actual_collaborators,
      ¬(d.collaborator = RepoCollaborator.team "security" ∧ d.diff.is_delete = true) := by
  intro d hd
  simp only [calculate_permission_diffs, List.append_assoc, List.mem_append] at hd
  rcases hd with hd | hd | hd | hd
  · intro hcontra
    have h := team_permission_loop_no_delete expected_repo.teams actual_teams d hd
    rw [hcontra.2] at h
    exact Bool.true_eq_false.mp h
  · intro hcontra
    have h := collaborator_permission_loop_user _ actual_collaborators d hd
    rw [hcontra.1] at h
    exact Bool.true_eq_false.mp h
  · rw [List.mem_filterMap] at hd
    obtain ⟨e, he, hde⟩ := hd
    by_cases hguard : e.2.name = "security" ∧ expected_repo.org = "rust-lang"
    · rw [if_pos hguard] at hde
      exact absurd hde (by simp)
    · rw [if_neg hguard] at hde
      have hname : e.2.name ≠ "security" := fun hn => hguard ⟨hn, horg⟩
      have hmem : e ∈ actual_teams := by
        have h1 := team_permission_loop_leftover_subset expected_repo.teams actual_teams
        have h2 := foldl_hmRemove_subset (expected_repo.bots.filterMap bot_user_name)
          (team_permission_loop expected_repo.teams actual_teams).2
        exact h1 (h2 he)
      have hkey : e.1 = e.2.name := hkeys e hmem
      have hdd := Option.some.inj hde
      subst hdd
      intro hcontra
      apply hname
      rw [← hkey]
      have h := hcontra.1
      injection h with h
  · rw [List.mem_map] at hd
    obtain ⟨e, _, hde⟩ := hd
    subst hde
    intro hcontra
    exact absurd hcontra.1 (by simp)

def repo_c7 : Repo :=
  { org := "rust-lang", name := "r1", description := "", homepage := none,
    archived := false, auto_merge_enabled := false,
    teams := [{ name := "t1", permission := RepoPermissionV1.write }],
    members := [], bots := [], branch_protections := [] }

def actual_teams_c7 : List (String × RepoTeam) :=
  [("security", { name := "security", permission := RepoPermission.triage }),
   ("old", { name := "old", permission := RepoPermission.write })]

theorem security_team_never_deleted_witness :
    ¬((RepoPermissionAssignmentDiff.mk (RepoCollaborator.team "old")
          (RepoPermissionDiff.delete RepoPermission.write)).collaborator
        = RepoCollaborator.team "security"
      ∧ (RepoPermissionAssignmentDiff.mk (RepoCollaborator.team "old")
          (RepoPermissionDiff.delete RepoPermission.write)).diff.is_delete = true) :=
  security_team_never_deleted repo_c7 actual_teams_c7 [] rfl (by decide)
    (by decide) (by decide)
    ⟨RepoCollaborator.team "old", RepoPermissionDiff.delete RepoPermission.write⟩
    (by decide)

/-! ## Claims about the Branch Protection Differ -/

/-- Every Update the declared-protections loop emits compares an observed
protection against a projection that contains all of the observed App push
allowances, and only fires when the two differ. -/
theorem diffBpLoop_update_inv (expected_repo : Repo) :
    ∀ (branch_protections : List BranchProtectionDecl)
      (actual_protections : List (String × String × ApiBranchProtection))
      (diffs : List BranchProtectionDiff)
      (leftover : List (String × String × ApiBranchProtection)),
      diffBpLoop expected_repo branch_protections actual_protections = some (diffs, leftover) →
      ∀ d ∈ diffs, ∀ database_id obs exp,
        d.operation = BranchProtectionDiffOperation.update database_id obs exp →
        (∀ a ∈ obs.push_allowances, is_app a = true → a ∈ exp.push_allowances) ∧ obs ≠ exp := by
  intro branch_protections
  induction branch_protections with
  | nil =>
    intro actual_protections diffs leftover h d hd database_id obs exp hop
    simp only [diffBpLoop, Option.some_inj, Prod.mk.injEq] at h
    rw [← h.1] at hd
    exact absurd hd (List.not_mem_nil d)
  | cons bp rest ih =>
    intro actual_protections diffs leftover h d hd database_id obs exp hop
    rcases hcon : construct_branch_protection expected_repo bp with _ | constructed
    · simp only [diffBpLoop, hcon] at h
      exact absurd h (by simp)
    · rcases hrec : diffBpLoop expected_repo rest (hmRemove actual_protections bp.pattern)
        with _ | ⟨diffs', leftover'⟩
      · simp only [diffBpLoop, hcon, hrec] at h
        exact absurd h (by simp)
      · rcases hget : hmGet actual_protections bp.pattern with _ | ⟨db, a⟩
        · simp only [diffBpLoop, hcon, hrec, hget, Option.some_inj, Prod.mk.injEq] at h
          rw [← h.1] at hd
          rcases List.mem_cons.mp hd with hd | hd
          · subst hd
            simp at hop
          · exact ih _ diffs' leftover' hrec d hd database_id obs exp hop
        · simp only [diffBpLoop, hcon, hrec, hget] at h
          split at h
          · rename_i hne
            simp only [Option.some_inj, Prod.mk.injEq] at h
            rw [← h.1] at hd
            rcases List.mem_cons.mp hd with hd | hd
            · subst hd
              simp only at hop
              injection hop with h1 h2 h3
              subst h1
              subst h2
              subst h3
              refine ⟨fun x hx hxapp => ?_, fun hcontra => hne hcontra⟩
              simp only [List.mem_append, List.mem_filter]
              right
              exact ⟨hx, hxapp⟩
            · exact ih _ diffs' leftover' hrec d hd database_id obs exp hop
          · simp only [Option.some_inj, Prod.mk.injEq] at h
            rw [← h.1] at hd
            exact ih _ diffs' leftover' hrec d hd database_id obs exp hop

/-- C4 (amended): in every emitted Update, the projected protection used for
the comparison contains every App push-allowance actor of the observed
protection, and the observed protection differs from that projected form;
hence no Update is emitted when the observed protection equals the projected
protection with its App actors appended. (The original claim fails when the
App actors precede other push allowances in the observed ordering.) -/
theorem app_preservation (st : GithubState) (actual_repo : ApiRepo)
    (expected_repo : Repo) (diffs : List BranchProtectionDiff)
    (h : diff_branch_protections st actual_repo expected_repo = some diffs)
    (d : BranchProtectionDiff) (hd : d ∈ diffs) (database_id : String)
    (obs exp : ApiBranchProtection)
    (hop : d.operation = BranchProtectionDiffOperation.update database_id obs exp) :
    (∀ a ∈ obs.push_allowances, is_app a = true → a ∈ exp.push_allowances) ∧ obs ≠ exp := by
  rw [diff_branch_protections] at h
  split at h
  · simp only [Option.some_inj] at h
    rw [← h] at hd
    exact absurd hd (List.not_mem_nil d)
  · rcases hloop : diffBpLoop expected_repo expected_repo.branch_protections
        (hmFromList (st.branch_protections actual_repo.org actual_repo.name))
      with _ | ⟨diffs', leftover⟩
    · simp only [hloop] at h
      exact absurd h (by simp)
    · simp only [hloop, Option.some_inj] at h
      rw [← h] at hd
      rcases List.mem_append.mp hd with hd | hd
      · exact diffBpLoop_update_inv expected_repo expected_repo.branch_protections _
          diffs' leftover hloop d hd database_id obs exp hop
      · rw [List.mem_map] at hd
        obtain ⟨e, _, hde⟩ := hd
        rw [← hde] at hop
        simp at hop

def obs_c4 : ApiBranchProtection :=
  { pattern := "main", is_admin_enforced := true, dismisses_stale_reviews := false,
    required_approving_review_count := 0, required_status_check_contexts := [],
    push_allowances :=
      [PushAllowanceActor.app { name := "some-app" },
       PushAllowanceActor.team { organization := { login := "acme" }, name := "infra" }],
    requires_approving_reviews := false }

def proj_c4 : ApiBranchProtection :=
  { pattern := "main", is_admin_enforced := true, dismisses_stale_reviews := false,
    required_approving_review_count := 0, required_status_check_contexts := [],
    push_allowances :=
      [PushAllowanceActor.team { organization := { login := "acme" }, name := "infra" }],
    requires_approving_reviews := false }

def exp_c4 : ApiBranchProtection :=
  { pattern := "main", is_admin_enforced := true, dismisses_stale_reviews := false,
    required_approving_review_count := 0, required_status_check_contexts := [],
    push_allowances :=
      [PushAllowanceActor.team { organization := { login := "acme" }, name := "infra" },
       PushAllowanceActor.app { name := "some-app" }],
    requires_approving_reviews := false }

def bp_c4 : BranchProtectionDecl :=
  { pattern := "main", dismiss_stale_review := false,
    mode := BranchProtectionMode.prNotRequired,
    allowed_merge_teams := ["infra"], merge_bots := [] }

def repo_c4 : Repo :=
  { org := "acme", name := "r1", description := "", homepage := none,
    archived := false, auto_merge_enabled := false,
    teams := [], members := [], bots := [], branch_protections := [bp_c4] }

def arepo_c4 : ApiRepo :=
  { name := "r1", org := "acme", description := "", homepage := none,
    archived := false, allow_auto_merge := none, node_id := "n1" }

def st_c4 : GithubState :=
  { user_name := fun _ => none, org_owners_set := fun _ => [],
    org_teams := fun _ => [], team := fun _ _ => none,
    team_memberships := fun _ _ => [], team_membership_invitations := fun _ _ => [],
    repo := fun _ _ => none, repo_teams := fun _ _ => [],
    repo_collaborators := fun _ _ => [],
    branch_protections := fun _ _ => [("main", ("bpid1", obs_c4))],
    uses_pat := true }

/-- C4 counterexample: the observed protection differs from the projection
only in its App push allowances, yet an Update is emitted, because the App
actors precede the team actor in the observed ordering while the comparison
appends them at the end. -/
theorem app_preservation_counterexample :
    construct_branch_protection repo_c4 bp_c4 = some proj_c4
    ∧ { obs_c4 with
          push_allowances := obs_c4.push_allowances.filter fun a => !is_app a } = proj_c4
    ∧ diff_branch_protections st_c4 arepo_c4 repo_c4 =
        some [⟨"main", BranchProtectionDiffOperation.update "bpid1" obs_c4 exp_c4⟩] := by
  refine ⟨by decide, by decide, ?_⟩
  decide

theorem app_preservation_witness :
    (∀ a ∈ obs_c4.push_allowances, is_app a = true → a ∈ exp_c4.push_allowances)
    ∧ obs_c4 ≠ exp_c4 :=
  app_preservation st_c4 arepo_c4 repo_c4
    [⟨"main", BranchProtectionDiffOperation.update "bpid1" obs_c4 exp_c4⟩] (by decide)
    ⟨"main", BranchProtectionDiffOperation.update "bpid1" obs_c4 exp_c4⟩ (by decide)
    "bpid1" obs_c4 exp_c4 rfl


/-! ## Claims about the team differ -/

/-- The keys of an association-list map. -/
def hmKeys (m : List (κ × α)) : List κ := m.map Prod.fst

theorem hmGet_eq_none [DecidableEq κ] {m : List (κ × α)} {k : κ} :
    hmGet m k = none ↔ ∀ e ∈ m, e.1 ≠ k := by
  rw [hmGet, Option.map_eq_none', List.find?_eq_none]
  simp

theorem hmGet_append [DecidableEq κ] (m m' : List (κ × α)) (k : κ) :
    hmGet (m ++ m') k =
      match hmGet m k with
      | some v => some v
      | none => hmGet m' k := by
  induction m with
  | nil => simp [hmGet]
  | cons e m ih =>
    by_cases he : e.1 = k
    · rw [List.cons_append, hmGet, List.find?_cons_of_pos _ (by simpa using he)]
      rw [hmGet, List.find?_cons_of_pos _ (by simpa using he)]
      rfl
    · rw [List.cons_append, hmGet, List.find?_cons_of_neg _ (by simpa using he)]
      rw [hmGet, List.find?_cons_of_neg _ (by simpa using he)]
      exact ih

theorem hmGet_update_self [DecidableEq κ] {m : List (κ × α)} {k : κ} {w : α} (v : α)
    (h : hmGet m k = some w) : hmGet (hmUpdate m k v) k = some v := by
  induction m with
  | nil => simp [hmGet] at h
  | cons e m ih =>
    by_cases he : e.1 = k
    · rw [hmUpdate, List.map_cons, if_pos he]
      rw [hmGet, List.find?_cons_of_pos _ (by simp)]
      rfl
    · rw [hmGet, List.find?_cons_of_neg _ (by simpa using he)] at h
      rw [hmUpdate, List.map_cons, if_neg he]
      rw [hmGet, List.find?_cons_of_neg _ (by simpa using he)]
      exact ih h

theorem hmGet_update_ne [DecidableEq κ] (m : List (κ × α)) {k k' : κ} (v : α)
    (h : k' ≠ k) : hmGet (hmUpdate m k v) k' = hmGet m k' := by
  induction m with
  | nil => simp [hmGet, hmUpdate]
  | cons e m ih =>
    by_cases he : e.1 = k
    · rw [hmUpdate, List.map_cons, if_pos he]
      rw [hmGet, List.find?_cons_of_neg _ (by simp; exact fun hh => h hh.symm)]
      rw [hmGet, List.find?_cons_of_neg _ (by simp; exact fun hh => h (hh ▸ he))]
      exact ih
    · rw [hmUpdate, List.map_cons, if_neg he]
      by_cases he' : e.1 = k'
      · rw [hmGet, List.find?_cons_of_pos _ (by simpa using he')]
        rw [hmGet, List.find?_cons_of_pos _ (by simpa using he')]
      · rw [hmGet, List.find?_cons_of_neg _ (by simpa using he')]
        rw [hmGet, List.find?_cons_of_neg _ (by simpa using he')]
        exact ih

theorem mem_hmGet [DecidableEq κ] :
    ∀ (m : List (κ × α)), (hmKeys m).Nodup → ∀ (k : κ) (v : α),
      ((k, v) ∈ m ↔ hmGet m k = some v) := by
  intro m
  induction m with
  | nil => intro _ k v; simp [hmGet]
  | cons e m ih =>
    intro hnd k v
    rw [hmKeys, List.map_cons, List.nodup_cons] at hnd
    by_cases he : e.1 = k
    · rw [hmGet, List.find?_cons_of_pos _ (by simpa using he)]
      simp only [Option.map_some', Option.some_inj, List.mem_cons]
      constructor
      · rintro (hkv | hkv)
        · rw [← hkv]
        · apply absurd _ hnd.1
          rw [he]
          exact List.mem_map_of_mem Prod.fst hkv
      · intro hkv
        left
        rw [← he, ← hkv]
    · rw [hmGet, List.find?_cons_of_neg _ (by simpa using he)]
      rw [List.mem_cons]
      constructor
      · rintro (hkv | hkv)
        · exact absurd (congrArg Prod.fst hkv).symm he
        · exact (ih hnd.2 k v).mp hkv
      · intro hkv
        right
        exact (ih hnd.2 k v).mpr hkv

theorem hmKeys_update [DecidableEq κ] (m : List (κ × α)) (k : κ) (v : α) :
    hmKeys (hmUpdate m k v) = hmKeys m := by
  induction m with
  | nil => rfl
  | cons e m ih =>
    rw [hmUpdate, List.map_cons, ← hmUpdate]
    rw [hmKeys, List.map_cons]
    rw [hmKeys, List.map_cons]
    rw [hmKeys] at ih
    congr 1
    by_cases he : e.1 = k
    · rw [if_pos he, he]
    · rw [if_neg he]

theorem stepUnseen_keys_nodup (st : GithubState)
    {unseen : List (String × List (String × String))}
    (h : (hmKeys unseen).Nodup) (gt : GitHubTeam) :
    (hmKeys (stepUnseen st unseen gt)).Nodup := by
  rw [stepUnseen]
  rcases hget : hmGet unseen gt.org with _ | ts
  · have hnot : gt.org ∉ hmKeys unseen := by
      intro hmem
      rw [hmKeys, List.mem_map] at hmem
      obtain ⟨e, he, heq⟩ := hmem
      exact hmGet_eq_none.mp hget e he heq
    rw [hmKeys, List.map_append, List.nodup_append]
    refine ⟨h, List.nodup_singleton _, fun a ha hb => ?_⟩
    simp only [List.map_cons, List.map_nil, List.mem_singleton] at hb
    exact hnot (hb ▸ ha)
  · rw [hmKeys_update]
    exact h

theorem foldl_stepUnseen_keys_nodup (st : GithubState) :
    ∀ (github_teams : List GitHubTeam) (unseen : List (String × List (String × String))),
      (hmKeys unseen).Nodup →
      (hmKeys (github_teams.foldl (stepUnseen st) unseen)).Nodup := by
  intro github_teams
  induction github_teams with
  | nil => intro unseen h; exact h
  | cons gt rest ih =>
    intro unseen h
    rw [List.foldl_cons]
    exact ih _ (stepUnseen_keys_nodup st h gt)

/-- Whether some processed declared team removes the observed entry. -/
def removedName (github_teams : List GitHubTeam) (org : String) (t : String × String) :
    Bool :=
  github_teams.any fun gt => decide (gt.org = org) && decide (gt.name = t.1)

theorem removedName_cons_org (gt : GitHubTeam) (rest : List GitHubTeam) (org : String)
    (t : String × String) (horg : gt.org = org) :
    (!removedName (gt :: rest) org t) = (decide (t.1 ≠ gt.name) && !removedName rest org t) := by
  rw [removedName, List.any_cons, horg, ← removedName]
  by_cases h : gt.name = t.1
  · simp [h]
  · have h' : t.1 ≠ gt.name := fun hh => h hh.symm
    simp [h, h']

theorem removedName_cons_ne (gt : GitHubTeam) (rest : List GitHubTeam) (org : String)
    (t : String × String) (horg : gt.org ≠ org) :
    removedName (gt :: rest) org t = removedName rest org t := by
  rw [removedName, List.any_cons, ← removedName]
  simp [horg]

theorem hmRemove_filter_removed (ts : List (String × String)) (gt : GitHubTeam)
    (rest : List GitHubTeam) (org : String) (horg : gt.org = org) :
    (hmRemove ts gt.name).filter (fun t => !removedName rest org t)
      = ts.filter fun t => !removedName (gt :: rest) org t := by
  rw [hmRemove, List.filter_filter]
  apply List.filter_congr
  intro t _
  rw [removedName_cons_org gt rest org t horg]
  exact Bool.and_comm _ _

/-- The unseen-teams map after a fold of declared teams: an org entry exists
iff the org was referenced, and it holds that org's fetched provider teams
minus every processed declared team name of that org. -/
theorem foldl_stepUnseen_get (st : GithubState) :
    ∀ (github_teams : List GitHubTeam)
      (unseen : List (String × List (String × String))) (org : String),
      hmGet (github_teams.foldl (stepUnseen st) unseen) org =
        match hmGet unseen org with
        | some ts => some (ts.filter fun t => !removedName github_teams org t)
        | none =>
          if org ∈ github_teams.map (fun gt => gt.org) then
            some ((hmFromList (st.org_teams org)).filter fun t =>
              !removedName github_teams org t)
          else none := by
  intro github_teams
  induction github_teams with
  | nil =>
    intro unseen org
    rcases h : hmGet unseen org with _ | ts
    · simp [h]
    · rw [List.foldl_nil, h]
      simp [removedName]
  | cons gt rest ih =>
    intro unseen org
    rw [List.foldl_cons, ih (stepUnseen st unseen gt) org]
    rcases hu : hmGet unseen org with _ | ts
    · by_cases horg : gt.org = org
      · have hstep : hmGet (stepUnseen st unseen gt) org =
            some (hmRemove (hmFromList (st.org_teams org)) gt.name) := by
          simp only [stepUnseen, horg, hu]
          rw [hmGet_append]
          simp only [hu]
          rw [hmGet, List.find?_cons_of_pos _ (by simp)]
          rfl
        simp only [hstep, hu]
        rw [if_pos (by rw [List.map_cons, ← horg]; exact List.mem_cons_self _ _)]
        rw [hmRemove_filter_removed _ gt rest org horg]
      · have hstep : hmGet (stepUnseen st unseen gt) org = none := by
          simp only [stepUnseen]
          rcases hu2 : hmGet unseen gt.org with _ | ts2
          · simp only [hu2]
            rw [hmGet_append]
            simp only [hu]
            rw [hmGet, List.find?_cons_of_neg _ (by simpa using horg)]
            rfl
          · simp only [hu2]
            rw [hmGet_update_ne _ _ fun hh => horg hh.symm]
            exact hu
        simp only [hstep, hu]
        have hmm : (org ∈ List.map (fun gtt => gtt.org) (gt :: rest)) ↔
            (org ∈ List.map (fun gtt => gtt.org) rest) := by
          rw [List.map_cons, List.mem_cons]
          constructor
          · rintro (hh | hh)
            · exact absurd hh.symm horg
            · exact hh
          · exact Or.inr
        by_cases href : org ∈ List.map (fun gtt => gtt.org) rest
        · rw [if_pos href, if_pos (hmm.mpr href)]
          congr 1
          apply List.filter_congr
          intro t _
          rw [removedName_cons_ne gt rest org t horg]
        · rw [if_neg href, if_neg fun hh => href (hmm.mp hh)]
    · by_cases horg : gt.org = org
      · have hstep : hmGet (stepUnseen st unseen gt) org = some (hmRemove ts gt.name) := by
          simp only [stepUnseen, horg, hu]
          exact hmGet_update_self _ hu
        simp only [hstep, hu]
        rw [hmRemove_filter_removed _ gt rest org horg]
      · have hstep : hmGet (stepUnseen st unseen gt) org = some ts := by
          simp only [stepUnseen]
          rcases hu2 : hmGet unseen gt.org with _ | ts2
          · simp only [hu2]
            rw [hmGet_append]
            simp only [hu]
          · simp only [hu2]
            rw [hmGet_update_ne _ _ fun hh => horg hh.symm]
            exact hu
        simp only [hstep, hu]
        congr 1
        apply List.filter_congr
        intro t _
        rw [removedName_cons_ne gt rest org t horg]

/-- Any element of a successful optionMapM run comes from applying the
function to some input element. -/
theorem optionMapM_mem {f : α → Option β} :
    ∀ {l : List α} {ys : List β}, optionMapM f l = some ys →
      ∀ y ∈ ys, ∃ x ∈ l, f x = some y := by
  intro l
  induction l with
  | nil =>
    intro ys h y hy
    simp only [optionMapM, Option.some_inj] at h
    rw [← h] at hy
    exact absurd hy (List.not_mem_nil y)
  | cons a as ih =>
    intro ys h y hy
    simp only [optionMapM] at h
    rcases hfa : f a with _ | b
    · rw [hfa] at h
      exact absurd h (by simp)
    · rw [hfa] at h
      rcases hrec : optionMapM f as with _ | bs
      · rw [hrec] at h
        exact absurd h (by simp)
      · rw [hrec] at h
        simp only [Option.map_some', Option.some_inj] at h
        rw [← h] at hy
        rcases List.mem_cons.mp hy with hy | hy
        · exact ⟨a, List.mem_cons_self _ _, by rw [hfa, hy]⟩
        · obtain ⟨x, hx, hfx⟩ := ih hrec y hy
          exact ⟨x, List.mem_cons_of_mem a hx, hfx⟩

/-- diff_team only produces Create and Edit diffs, never a Delete. -/
theorem diff_team_not_delete (st : GithubState) (usernames_cache : List (Nat × String))
    (org_owners : List (String × List Nat)) (github_team : GitHubTeam) (td : TeamDiff)
    (h : diff_team st usernames_cache org_owners github_team = some td) :
    ∀ dd, td ≠ TeamDiff.delete dd := by
  intro dd hcontra
  subst hcontra
  simp only [diff_team] at h
  split at h
  · split at h
    · exact absurd h (by simp)
    · simp only [Option.some_inj] at h
      exact absurd h (by simp)
  · split at h
    · exact absurd h (by simp)
    · simp only [Option.some_inj] at h
      exact absurd h (by simp)

/-- Every diff in the deletion section is a Delete. -/
theorem delete_diffs_of_shape (unseen : List (String × List (String × String))) :
    ∀ x ∈ delete_diffs_of unseen, ∃ dd, x = TeamDiff.delete dd := by
  intro x hx
  simp only [delete_diffs_of, List.mem_flatMap, List.mem_map] at hx
  obtain ⟨e, _, t, _, heq⟩ := hx
  exact ⟨_, heq.symm⟩

/-- Membership of a Delete diff in the deletion section, element-wise. -/
theorem mem_delete_diffs_of (unseen : List (String × List (String × String)))
    (org name slug : String) :
    TeamDiff.delete ⟨org, name, slug⟩ ∈ delete_diffs_of unseen ↔
      ∃ ts, (org, ts) ∈ unseen ∧ (org = "rust-lang" ∨ org = "rust-lang-nursery")
        ∧ (name, slug) ∈ ts ∧ name ∉ BOTS_TEAMS := by
  simp only [delete_diffs_of, List.mem_flatMap, List.mem_filter, List.mem_map,
    Bool.or_eq_true, decide_eq_true_eq, Bool.not_eq_true', decide_eq_false_iff_not,
    TeamDiff.delete.injEq, DeleteTeamDiff.mk.injEq]
  constructor
  · rintro ⟨e, ⟨he, horg⟩, t, ⟨ht, hbot⟩, heq1, heq2, heq3⟩
    refine ⟨e.2, ?_, ?_, ?_, ?_⟩
    · rw [← heq1]
      exact he
    · rw [← heq1]
      exact horg
    · rw [← heq2, ← heq3]
      exact ht
    · rw [← heq2]
      exact hbot
  · rintro ⟨ts, hmem, horg, ht, hbot⟩
    exact ⟨(org, ts), ⟨hmem, horg⟩, (name, slug), ⟨ht, hbot⟩, rfl, rfl, rfl⟩

/-- C3 (amended): a Delete is emitted for a provider team exactly when the
team is observed in its org's provider team map, no declared team has that
org and name, the org is in the deletion allowlist, the name is not a
reserved bot team, and at least one declared team references the org (the
engine only fetches — and hence only deletes from — referenced orgs; the
original claim omitted this last condition). -/
theorem team_delete_gate (st : GithubState) (usernames_cache : List (Nat × String))
    (org_owners : List (String × List Nat)) (teams : List Team) (diffs : List TeamDiff)
    (h : diff_teams st usernames_cache org_owners teams = some diffs)
    (org name slug : String) :
    TeamDiff.delete ⟨org, name, slug⟩ ∈ diffs ↔
      ((name, slug) ∈ hmFromList (st.org_teams org)
        ∧ (∀ gt ∈ declaredGithubTeams teams, ¬(gt.org = org ∧ gt.name = name))
        ∧ (org = "rust-lang" ∨ org = "rust-lang-nursery")
        ∧ name ∉ BOTS_TEAMS
        ∧ ∃ gt ∈ declaredGithubTeams teams, gt.org = org) := by
  simp only [diff_teams] at h
  rcases homm : optionMapM (diff_team st usernames_cache org_owners)
      (declaredGithubTeams teams) with _ | tds
  · rw [homm] at h
    exact absurd h (by simp)
  · rw [homm] at h
    simp only [Option.some_inj] at h
    rw [← h, List.mem_append]
    have hnd := foldl_stepUnseen_keys_nodup st (declaredGithubTeams teams) [] List.nodup_nil
    have hchar := foldl_stepUnseen_get st (declaredGithubTeams teams) [] org
    rw [show hmGet ([] : List (String × List (String × String))) org = none from rfl] at hchar
    have hmain : TeamDiff.delete ⟨org, name, slug⟩ ∉
        tds.filter fun diff_team => !diff_team.noop := by
      intro hmem
      obtain ⟨gt, _, hgt⟩ := optionMapM_mem homm _ (List.mem_of_mem_filter hmem)
      exact diff_team_not_delete st usernames_cache org_owners gt _ hgt _ rfl
    constructor
    · rintro (hmem | hmem)
      · exact absurd hmem hmain
      · rw [mem_delete_diffs_of] at hmem
        obtain ⟨ts, hts, horg, htname, hbot⟩ := hmem
        have hget := (mem_hmGet _ hnd org ts).mp hts
        simp only [unseen_after] at hget
        rw [hchar] at hget
        by_cases href : org ∈ (declaredGithubTeams teams).map fun gt => gt.org
        · rw [if_pos href] at hget
          simp only [Option.some_inj] at hget
          rw [← hget, List.mem_filter] at htname
          obtain ⟨hobs, hrem⟩ := htname
          refine ⟨hobs, ?_, horg, hbot, ?_⟩
          · intro gt hgt hcontra
            rw [Bool.not_eq_true', removedName, List.any_eq_false] at hrem
            have := hrem gt hgt
            simp only [Bool.and_eq_true, decide_eq_true_eq] at this
            exact this ⟨hcontra.1, hcontra.2⟩
          · rw [List.mem_map] at href
            obtain ⟨gt, hgt, heq⟩ := href
            exact ⟨gt, hgt, heq⟩
        · rw [if_neg href] at hget
          exact absurd hget (by simp)
    · rintro ⟨hobs, hnotdecl, horg, hbot, href⟩
      right
      rw [mem_delete_diffs_of]
      have hrefmap : org ∈ (declaredGithubTeams teams).map fun gt => gt.org := by
        rw [List.mem_map]
        obtain ⟨gt, hgt, heq⟩ := href
        exact ⟨gt, hgt, heq⟩
      refine ⟨(hmFromList (st.org_teams org)).filter fun t =>
        !removedName (declaredGithubTeams teams) org t, ?_, horg, ?_, hbot⟩
      · apply (mem_hmGet _ hnd org _).mpr
        rw [hchar, if_pos hrefmap]
      · rw [List.mem_filter]
        refine ⟨hobs, ?_⟩
        rw [Bool.not_eq_true', removedName, List.any_eq_false]
        intro gt hgt
        simp only [Bool.and_eq_true, decide_eq_true_eq, not_and]
        intro h1 h2
        exact hnotdecl gt hgt ⟨h1, h2⟩

def st_c3 : GithubState :=
  { user_name := fun _ => none, org_owners_set := fun _ => [],
    org_teams := fun o => if o = "rust-lang" then [("ghost", "ghost-slug")] else [],
    team := fun _ _ => none,
    team_memberships := fun _ _ => [], team_membership_invitations := fun _ _ => [],
    repo := fun _ _ => none, repo_teams := fun _ _ => [],
    repo_collaborators := fun _ _ => [], branch_protections := fun _ _ => [],
    uses_pat := true }

/-- C3 counterexample: a provider team in an allowlisted org with an
unreserved name and absent from an empty declaration receives no Delete,
because no declared team references its org and the engine never fetches
it. -/
theorem team_delete_gate_counterexample :
    diff_teams st_c3 [] [] [] = some []
    ∧ ("ghost", "ghost-slug") ∈ hmFromList (st_c3.org_teams "rust-lang")
    ∧ (∀ gt ∈ declaredGithubTeams [], ¬(gt.org = "rust-lang" ∧ gt.name = "ghost"))
    ∧ ("rust-lang" = "rust-lang" ∨ "rust-lang" = "rust-lang-nursery")
    ∧ "ghost" ∉ BOTS_TEAMS
    ∧ TeamDiff.delete ⟨"rust-lang", "ghost", "ghost-slug"⟩ ∉ ([] : List TeamDiff) := by
  decide

def st_c3w : GithubState :=
  { user_name := fun _ => none, org_owners_set := fun _ => [],
    org_teams := fun o =>
      if o = "rust-lang" then [("team-a", "team-a"), ("ghost", "ghost-slug")] else [],
    team := fun o n =>
      if o = "rust-lang" ∧ n = "team-a" then
        some { name := "team-a", description := some DEFAULT_DESCRIPTION,
               privacy := TeamPrivacy.closed }
      else none,
    team_memberships := fun _ _ => [], team_membership_invitations := fun _ _ => [],
    repo := fun _ _ => none, repo_teams := fun _ _ => [],
    repo_collaborators := fun _ _ => [], branch_protections := fun _ _ => [],
    uses_pat := true }

def teams_c3 : List Team :=
  [{ github := some { teams := [{ org := "rust-lang", name := "team-a", members := [] }] } }]

theorem team_delete_gate_witness :
    TeamDiff.delete ⟨"rust-lang", "ghost", "ghost-slug"⟩ ∈
      [TeamDiff.delete ⟨"rust-lang", "ghost", "ghost-slug"⟩] :=
  (team_delete_gate st_c3w [] [] teams_c3
      [TeamDiff.delete ⟨"rust-lang", "ghost", "ghost-slug"⟩] (by decide)
      "rust-lang" "ghost" "ghost-slug").mpr
    ⟨by decide, by decide, Or.inl rfl, by decide, by decide⟩


/-! ## Claims about the assembled diff -/

/-- C9: every diff create_diff emits is non-noop: every Edit carries a name,
description, privacy, or non-Noop member change, and every Update survives
the archive fast-skip (it is never archived on both sides) and changes the
settings or carries a permission or branch-protection diff. -/
theorem emitted_diffs_non_noop (st : GithubState) (teams : List Team)
    (repos : List Repo) (d : Diff) (h : create_diff st teams repos = some d) :
    (∀ e : EditTeamDiff, TeamDiff.edit e ∈ d.team_diffs →
      (e.name_diff ≠ none ∨ e.description_diff ≠ none ∨ e.privacy_diff ≠ none
        ∨ ∃ m ∈ e.member_diffs, m.2.is_noop = false))
    ∧ ∀ u : UpdateRepoDiff, RepoDiff.update u ∈ d.repo_diffs →
        (¬(u.settings_diff.1.archived = true ∧ u.settings_diff.2.archived = true)
          ∧ (u.settings_diff.1 ≠ u.settings_diff.2 ∨ u.permission_diffs ≠ []
              ∨ u.branch_protection_diffs ≠ [])) := by
  simp only [create_diff] at h
  rcases hteams : diff_teams st (usernames_cache_of st teams) (org_owners_of st teams) teams
      with _ | team_diffs
  · rw [hteams] at h
    exact absurd h (by simp)
  · rw [hteams] at h
    rcases hrepos : diff_repos st repos with _ | repo_diffs
    · rw [hrepos] at h
      exact absurd h (by simp)
    · rw [hrepos] at h
      simp only [Option.some_inj] at h
      constructor
      · intro e he
        rw [← h] at he
        simp only [diff_teams] at hteams
        rcases homm : optionMapM
            (diff_team st (usernames_cache_of st teams) (org_owners_of st teams))
            (declaredGithubTeams teams) with _ | tds
        · rw [homm] at hteams
          exact absurd hteams (by simp)
        · rw [homm] at hteams
          simp only [Option.some_inj] at hteams
          rw [← hteams, List.mem_append] at he
          rcases he with he | he
          · have hnoop : (TeamDiff.edit e).noop = false := by
              have := (List.mem_filter.mp he).2
              rw [Bool.not_eq_true'] at this
              exact this
            rw [TeamDiff.noop, EditTeamDiff.noop] at hnoop
            by_contra hcon
            push_neg at hcon
            obtain ⟨h1, h2, h3, h4⟩ := hcon
            rw [h1, h2, h3] at hnoop
            simp only [Option.isNone_none, Bool.true_and] at hnoop
            rw [List.all_eq_true.mpr fun m hm => ?_] at hnoop
            · exact Bool.true_eq_false.mp hnoop
            · have h4' : ∀ (a : String) (b : MemberDiff), (a, b) ∈ e.member_diffs →
                  b.is_noop = true := by simpa using h4
              exact h4' m.1 m.2 hm
          · obtain ⟨dd, hdd⟩ := delete_diffs_of_shape _ _ he
            exact absurd hdd (by simp)
      · intro u hu
        rw [← h] at hu
        simp only [diff_repos] at hrepos
        rcases homm : optionMapM (diff_repo st) repos with _ | rds
        · rw [homm] at hrepos
          exact absurd hrepos (by simp)
        · rw [homm] at hrepos
          simp only [Option.some_inj] at hrepos
          rw [← hrepos] at hu
          have hnoop : (RepoDiff.update u).noop = false := by
            have := (List.mem_filter.mp hu).2
            rw [Bool.not_eq_true'] at this
            exact this
          rw [RepoDiff.noop, UpdateRepoDiff.noop] at hnoop
          rcases hcm : u.can_be_modified with _ | _
          · rw [hcm] at hnoop
            simp at hnoop
          · rw [hcm] at hnoop
            simp only [Bool.not_true, Bool.false_eq_true, not_false_iff, if_false,
              Bool.and_eq_false_iff] at hnoop
            constructor
            · rw [UpdateRepoDiff.can_be_modified] at hcm
              intro hcontra
              rw [hcontra.1, hcontra.2] at hcm
              simp at hcm
            · rcases hnoop with (hs | hp) | hb
              · left
                simpa using hs
              · right
                left
                simpa [List.isEmpty_iff] using hp
              · right
                right
                simpa [List.isEmpty_iff] using hb

def arepo_c9 : ApiRepo :=
  { name := "r1", org := "acme", description := "old", homepage := none,
    archived := false, allow_auto_merge := none, node_id := "node-1" }

def st_c9 : GithubState :=
  { user_name := fun _ => none, org_owners_set := fun _ => [],
    org_teams := fun o => if o = "acme" then [("t1", "t1")] else [],
    team := fun o n =>
      if o = "acme" ∧ n = "t1" then
        some { name := "t1", description := none, privacy := TeamPrivacy.closed }
      else none,
    team_memberships := fun _ _ => [], team_membership_invitations := fun _ _ => [],
    repo := fun o n => if o = "acme" ∧ n = "r1" then some arepo_c9 else none,
    repo_teams := fun _ _ => [], repo_collaborators := fun _ _ => [],
    branch_protections := fun _ _ => [], uses_pat := true }

def teams_c9 : List Team :=
  [{ github := some { teams := [{ org := "acme", name := "t1", members := [] }] } }]

def repos_c9 : List Repo :=
  [{ org := "acme", name := "r1", description := "new", homepage := none,
     archived := false, auto_merge_enabled := false,
     teams := [], members := [], bots := [], branch_protections := [] }]

def edit_c9 : EditTeamDiff :=
  { org := "acme", name := "t1", name_diff := none,
    description_diff := some ("", DEFAULT_DESCRIPTION), privacy_diff := none,
    member_diffs := [] }

def upd_c9 : UpdateRepoDiff :=
  { org := "acme", name := "r1", repo_node_id := "node-1",
    settings_diff :=
      ({ description := "old", homepage := none, archived := false,
         auto_merge_enabled := false },
       { description := "new", homepage := none, archived := false,
         auto_merge_enabled := false }),
    permission_diffs := [], branch_protection_diffs := [] }

def d_c9 : Diff :=
  { team_diffs := [TeamDiff.edit edit_c9], repo_diffs := [RepoDiff.update upd_c9] }

theorem emitted_diffs_non_noop_witness :
    (edit_c9.name_diff ≠ none ∨ edit_c9.description_diff ≠ none
      ∨ edit_c9.privacy_diff ≠ none ∨ ∃ m ∈ edit_c9.member_diffs, m.2.is_noop = false)
    ∧ ¬(upd_c9.settings_diff.1.archived = true ∧ upd_c9.settings_diff.2.archived = true) :=
  ⟨(emitted_diffs_non_noop st_c9 teams_c9 repos_c9 d_c9 (by decide)).1 edit_c9 (by decide),
   ((emitted_diffs_non_noop st_c9 teams_c9 repos_c9 d_c9 (by decide)).2 upd_c9
     (by decide)).1⟩


end SyncTeam

